import Mathlib

/-!
Verification development for the `moodle-ws-client` library
(`src/lib/moodleWSClient.js`).

The JavaScript values the library manipulates are shallowly embedded as the
inductive type `JsVal`; plain objects are association lists in insertion
order (the iteration order of a JavaScript `for..in` loop over the
non-index string keys used here), and numbers are modelled as integers,
which covers every numeric value the library's contracts mention.
Fallible operations return `Except JsError`.

The embedded operations follow the source:
 * `recursor` / `encodeWSArguments`  — `MoodleWSClient.encodeWSArguments`
   (lines 559–596), the bracketed-path parameter encoder;
 * `handleResponse`                  — the response classification inside
   `submit` (lines 423–433);
 * `mkWSErrorMessage` / `mkMoodleWSError` — the `MoodleWSError`
   constructor (lines 616–662);
 * `submitAssemble`                  — the request assembly in `submit`
   (lines 381–421) together with `apiUrl` (lines 341–343);
 * `mkClient` / `mkClientH`          — the class constructor
   (lines 254–314), the latter with an explicit heap so that the in-place
   mutation of the caller's options object is visible.

External collaborators (the `validate-params` constraint framework, the
`moment` duration library, the HTTP transport) are modelled from the
interfaces the specification assigns to them; each such definition carries
a doc comment saying so.
-/

namespace MoodleWS

/-- A JavaScript value as handled by the client library.  `vNull` stands for
both `null` and `undefined` (the library treats them alike everywhere it
looks at them), `vArr` is an array, `vObj` a plain object as an association
list in insertion order, and `vFun` a function object (or any other value
that is neither a primitive, an array, nor a plain object — e.g. a
prototyped object), which the encoder must reject. -/
inductive JsVal where
  | vNull : JsVal
  | vBool : Bool → JsVal
  | vNum  : Int → JsVal
  | vStr  : String → JsVal
  | vArr  : List JsVal → JsVal
  | vObj  : List (String × JsVal) → JsVal
  | vFun  : JsVal
deriving Repr

/-- Association-list lookup (first match), the reading of a property from a
plain object; JavaScript objects have unique keys, so first match is the
object's single binding for the key. -/
def alookup {α : Type} (k : String) : List (String × α) → Option α
  | [] => none
  | p :: ps => if p.1 = k then some p.2 else alookup k ps

/-- JavaScript truthiness of a value. -/
def truthy : JsVal → Bool
  | .vNull => false
  | .vBool b => b
  | .vNum n => n != 0
  | .vStr s => s != ""
  | .vArr _ => true
  | .vObj _ => true
  | .vFun => true

/-- Property access `v[k]`: a binding of a plain object, `undefined`
(`vNull`) on every other value — matching that `"s".exception`,
`[1].exception` etc. are `undefined` in JavaScript. -/
def jsGet (v : JsVal) (k : String) : JsVal :=
  match v with
  | .vObj kvs => (alookup k kvs).getD .vNull
  | _ => .vNull

/-- The check `validate.isObject(v)` of the validate.js collaborator:
`v === Object(v)`, true for plain objects, arrays and functions. -/
def isObjectJS : JsVal → Bool
  | .vObj _ => true
  | .vArr _ => true
  | .vFun => true
  | _ => false

mutual

/-- JavaScript `String(v)` conversion.  Arrays join the conversions of
their elements with `,` (with `null`/`undefined` elements contributing the
empty string), plain objects display as `[object Object]`. -/
def jsDisplay : JsVal → String
  | .vNull => "null"
  | .vBool b => if b then "true" else "false"
  | .vNum n => toString n
  | .vStr s => s
  | .vArr l => jsDisplayArr l
  | .vObj _ => "[object Object]"
  | .vFun => "function"

/-- Element-wise `Array.prototype.toString` joining with commas. -/
def jsDisplayArr : List JsVal → String
  | [] => ""
  | [.vNull] => ""
  | [x] => jsDisplay x
  | .vNull :: xs => "," ++ jsDisplayArr xs
  | x :: xs => jsDisplay x ++ "," ++ jsDisplayArr xs

end

/-- The message synthesized by the `MoodleWSError` constructor
(source lines 630–638): the `exception` field followed by `": "` when
truthy, then the `message` field when truthy and otherwise the literal
`"unknown webservice error"`, then `" (Error Code: <errorcode>)"` when
`errorcode` is truthy.  A `responseData` that is not an object is first
coerced to the empty object (lines 618–628). -/
def mkWSErrorMessage (responseData : JsVal) : String :=
  let rd := if isObjectJS responseData then responseData else JsVal.vObj []
  (if truthy (jsGet rd "exception") then jsDisplay (jsGet rd "exception") ++ ": " else "") ++
    (if truthy (jsGet rd "message") then jsDisplay (jsGet rd "message")
     else "unknown webservice error") ++
    (if truthy (jsGet rd "errorcode") then " (Error Code: " ++ jsDisplay (jsGet rd "errorcode") ++ ")"
     else "")

/-- The `MoodleWSError` object: its `name`, synthesized `message`, and the
stored response data exposed by the `responseData()` accessor. -/
structure MoodleWSError where
  name : String
  message : String
  responseData : JsVal
deriving Repr

/-- `new MoodleWSError(responseData)` (source lines 616–662). -/
def mkMoodleWSError (responseData : JsVal) : MoodleWSError :=
  { name := "MoodleWSError"
    message := mkWSErrorMessage responseData
    responseData := if isObjectJS responseData then responseData else JsVal.vObj [] }

/-- The errors the embedded operations can raise: a `ValidationError` from
the validate-params collaborator, the `TypeError` thrown by the encoder's
`recursor` (the spec's TypeConversionError), and a thrown `MoodleWSError`. -/
inductive JsError where
  | validationError : JsError
  | typeConversionError : JsError
  | wsError : MoodleWSError → JsError
deriving Repr

/-- The response classification inside `submit` (source lines 423–433):
after the body parses as JSON, throw `new MoodleWSError(responseData)`
when `responseData && responseData.exception` is truthy, otherwise return
`responseData` itself. -/
def handleResponse (responseData : JsVal) : Except JsError JsVal :=
  if truthy responseData && truthy (jsGet responseData "exception") then
    .error (.wsError (mkMoodleWSError responseData))
  else
    .ok responseData

/-- JavaScript property assignment `m[k] = v` on an object represented as
an association list: an existing binding is overwritten in place, a new
key is appended at the end. -/
def upsert (m : List (String × String)) (k v : String) : List (String × String) :=
  if m.any (fun p => decide (p.1 = k)) then m.map (fun p => if p.1 = k then (k, v) else p)
  else m ++ [(k, v)]

/-- Folding a list of assignments into an object with `upsert`, the effect
of a `for..in` loop writing each pair into `m`. -/
def foldUp (m : List (String × String)) (prs : List (String × String)) :
    List (String × String) :=
  prs.foldl (fun a p => upsert a p.1 p.2) m

mutual

/-- The `recursor` helper of `encodeWSArguments` (source lines 567–588).
A primitive is stringified into `resObj[curPrefix]`; an array recurses on
each element with `[i]` appended to the path; a plain object recurses on
each binding with `[k]` appended (the bare key when the path is still
empty); anything else throws the `TypeError` of line 587. -/
def recursor (res : List (String × String)) (pre : String) :
    JsVal → Except JsError (List (String × String))
  | .vNull => .ok (upsert res pre "null")
  | .vBool b => .ok (upsert res pre (if b then "true" else "false"))
  | .vNum n => .ok (upsert res pre (toString n))
  | .vStr s => .ok (upsert res pre s)
  | .vArr l => recursorArr res pre 0 l
  | .vObj kvs => recursorObj res pre kvs
  | .vFun => .error .typeConversionError

/-- The `for(let i = 0; ...)` loop of `recursor` over an array. -/
def recursorArr (res : List (String × String)) (pre : String) (i : Nat) :
    List JsVal → Except JsError (List (String × String))
  | [] => .ok res
  | x :: xs =>
    match recursor res (pre ++ "[" ++ toString i ++ "]") x with
    | .ok res2 => recursorArr res2 pre (i + 1) xs
    | .error e => .error e

/-- The `for(let k in toProcess)` loop of `recursor` over a plain object. -/
def recursorObj (res : List (String × String)) (pre : String) :
    List (String × JsVal) → Except JsError (List (String × String))
  | [] => .ok res
  | (k, x) :: xs =>
    match recursor res (if pre = "" then k else pre ++ "[" ++ k ++ "]") x with
    | .ok res2 => recursorObj res2 pre xs
    | .error e => .error e

end

/-- `MoodleWSClient.encodeWSArguments` (source lines 559–596): the argument
must be a plain object (`dictionary: true`, otherwise a ValidationError),
then `recursor` runs from the empty accumulator and empty path. -/
def encodeWSArguments : JsVal → Except JsError (List (String × String))
  | .vObj kvs => recursor [] "" (.vObj kvs)
  | _ => .error .validationError

mutual

/-- Follows the spec's words (§4.1, the claims' path rule) rather than the
source: the list of `(bracketed path, stringified value)` pairs of the
scalar leaves of a tree, collected by depth-first pre-order descent —
sequence elements append `[i]`, mapping keys append `[k]` except at the
top level (empty path) where the key appears bare; `none` when the tree
contains an unsupported node. -/
def specLeaves (pre : String) : JsVal → Option (List (String × String))
  | .vNull => some [(pre, "null")]
  | .vBool b => some [(pre, if b then "true" else "false")]
  | .vNum n => some [(pre, toString n)]
  | .vStr s => some [(pre, s)]
  | .vArr l => specLeavesArr pre 0 l
  | .vObj kvs => specLeavesObj pre kvs
  | .vFun => none

/-- Leaves of the elements of a sequence, in order, starting at index `i`. -/
def specLeavesArr (pre : String) (i : Nat) :
    List JsVal → Option (List (String × String))
  | [] => some []
  | x :: xs =>
    match specLeaves (pre ++ "[" ++ toString i ++ "]") x with
    | none => none
    | some a =>
      match specLeavesArr pre (i + 1) xs with
      | none => none
      | some b => some (a ++ b)

/-- Leaves of the bindings of a mapping, in key order. -/
def specLeavesObj (pre : String) :
    List (String × JsVal) → Option (List (String × String))
  | [] => some []
  | (k, x) :: xs =>
    match specLeaves (if pre = "" then k else pre ++ "[" ++ k ++ "]") x with
    | none => none
    | some a =>
      match specLeavesObj pre xs with
      | none => none
      | some b => some (a ++ b)

end

mutual

/-- Whether a tree contains, at any depth, a node that is neither a scalar,
a sequence, nor a string-keyed mapping. -/
def hasInvalid : JsVal → Bool
  | .vNull => false
  | .vBool _ => false
  | .vNum _ => false
  | .vStr _ => false
  | .vArr l => hasInvalidArr l
  | .vObj kvs => hasInvalidObj kvs
  | .vFun => true

/-- `hasInvalid` over the elements of an array. -/
def hasInvalidArr : List JsVal → Bool
  | [] => false
  | x :: xs => hasInvalid x || hasInvalidArr xs

/-- `hasInvalid` over the values of an object. -/
def hasInvalidObj : List (String × JsVal) → Bool
  | [] => false
  | (_, x) :: xs => hasInvalid x || hasInvalidObj xs

end

/-- A flat map of string scalars viewed as an input tree for the encoder. -/
def strObj (kvs : List (String × String)) : JsVal :=
  .vObj (kvs.map (fun p => (p.1, .vStr p.2)))

/-- Follows the spec's words: the decoded payload is a mapping containing a
truthy `exception` key. -/
def hasTruthyException : JsVal → Bool
  | .vObj kvs => truthy ((alookup "exception" kvs).getD .vNull)
  | _ => false

/-- The fixed REST API path (source line 119). -/
def MOODLE_API_PATH : String := "webservice/rest/server.php"

/-- A value supplied for a `timeout` option, the `Duration` typedef of the
source: absent (`undefined`, `null`, or another value `validate.isEmpty`
accepts as empty), a plain number of milliseconds, a moment duration object
reporting a given number of milliseconds, a duration-parseable object or
string that moment normalizes to a given number of milliseconds, or a
value whose number coercion is `NaN`. -/
inductive TimeoutOpt where
  | absent : TimeoutOpt
  | msVal  : Int → TimeoutOpt
  | duration : Int → TimeoutOpt
  | durationLike : Int → TimeoutOpt
  | invalid : TimeoutOpt
deriving Repr, DecidableEq

/-- `vpCons.timeoutMS.vpopt_coerce` (source lines 202–211): a moment
duration reports its milliseconds; a duration-parseable object or string
is used when it normalizes to a positive count, and otherwise falls
through to the number coercion; the moment and validate-params
collaborators themselves are modelled from the spec's interface for them
(`none` is a coercion result that is not a number, such as `NaN` from
coercing `undefined` or an unparseable value). -/
def coerceTimeout : TimeoutOpt → Option Int
  | .absent => none
  | .msVal n => some n
  | .duration ms => some ms
  | .durationLike ms => if 0 < ms then some ms else none
  | .invalid => none

/-- The `numericality: onlyInteger, greaterThan: 0` constraint of
`vpCons.timeoutMS` applied by `validate.single` (source line 414): the
coerced value is valid when it is an integer greater than zero (`NaN` and
non-numbers are invalid). -/
def timeoutValid : Option Int → Bool
  | some n => decide (0 < n)
  | none => false

/-- The per-call timeout selection of `submit` (source lines 410–416): the
request starts with the descriptor's stored timeout and is overwritten by
the coerced call-option timeout exactly when that coercion passes
validation. -/
def effectiveTimeout (dflt : Int) (t : TimeoutOpt) : Int :=
  if timeoutValid (coerceTimeout t) then (coerceTimeout t).getD dflt else dflt

/-- The options stored on a constructed client (`this._options`): the two
fields the constructor's coercion always writes, plus the `dataFormat`
key, which is stored only if the caller supplied it (the constructor
itself never writes or defaults it). -/
structure StoredOptions where
  acceptUntrustedTLSCert : Bool
  timeout : Int
  dataFormat : Option String
deriving Repr, DecidableEq

/-- A constructed `MoodleWSClient` instance: the normalized base URL, the
token, and the stored options (source lines 307–310). -/
structure MoodleWSClient where
  moodleUrl : String
  token : String
  options : StoredOptions
deriving Repr, DecidableEq

/-- `apiUrl()` (source lines 341–343). -/
def apiUrl (c : MoodleWSClient) : String := c.moodleUrl ++ MOODLE_API_PATH

/-- The request options object handed to the transport collaborator
(source lines 402–420): URL, method, query parameters, TLS-trust flag and
timeout. -/
structure Request where
  uri : String
  method : String
  qs : List (String × String)
  strictSSL : Bool
  timeout : Int
deriving Repr, DecidableEq

/-- Uppercasing, `String.prototype.toUpperCase` (structurally over the
character list so that it evaluates). -/
def strUpper (s : String) : String := String.mk (s.data.map Char.toUpper)

/-- Lowercasing, `String.prototype.toLowerCase`. -/
def strLower (s : String) : String := String.mk (s.data.map Char.toLower)

/-- A whitespace character as in the validate.js emptiness test. -/
def wsChar (c : Char) : Bool := c == ' ' || c == '\t' || c == '\n' || c == '\r'

/-- The validate.js emptiness test for strings (`/^\s*$/`): empty or
whitespace-only. -/
def emptyJS (s : String) : Bool := s.data.all wsChar

/-- Whether the first list leads (starts) the second. -/
def listLeads : List Char → List Char → Bool
  | [], _ => true
  | _ :: _, [] => false
  | p :: ps, c :: cs => p == c && listLeads ps cs

/-- Whether the string ends with a slash. -/
def endsSlash (s : String) : Bool := s.data.getLast? == some '/'

/-- The `vpCons.httpMethod` coercion (source lines 139–150): uppercase the
string, and default an empty value to `GET` (`vpopt_defaultWhenEmpty`;
the validate.js emptiness test treats whitespace-only strings as empty,
and uppercasing preserves emptiness, so the test may be read off the
original value). -/
def effectiveMethod (s : String) : String :=
  if emptyJS s then "GET" else strUpper s

/-- The `format: /GET|POST|PUT/` constraint of `vpCons.httpMethod`: the
validate.js format validator requires the regex match to cover the whole
value, so exactly the three strings pass. -/
def methodValid (m : String) : Bool :=
  m == "GET" || m == "POST" || m == "PUT"

/-- The `vpCons.wsFunctionName` coercion (source lines 177–187):
lowercase the string. -/
def effectiveWsFunction (s : String) : String := strLower s

/-- A character allowed by the `format: /[a-z_]+/` constraint. -/
def wsFunctionChar (c : Char) : Bool := c == '_' || ('a' ≤ c && c ≤ 'z')

/-- The `vpCons.wsFunctionName` constraint with `presence: true`: a
non-empty string fully matching `[a-z_]+` (the validate.js format
validator requires the match to cover the whole value). -/
def wsFunctionValid (f : String) : Bool := !emptyJS f && f.data.all wsFunctionChar

/-- The `dictionary: true` constraint: the value is a plain object. -/
def isDict : JsVal → Bool
  | .vObj _ => true
  | _ => false

/-- The request assembly of `submit` (source lines 381–421): validate and
coerce the method, the web-service function name and the parameters
(`ValidationError` without any request being built otherwise), encode the
parameters, and build the request options object — the fixed API URL, the
base query parameters `wstoken` / `wsfunction` / `moodlewsrestformat`
(the latter the literal `'json'`, line 408) with the encoded parameters
merged over them, the TLS flag, and the effective timeout.  The returned
`Request` is what the transport collaborator is invoked with; an `error`
result means no request reaches the transport. -/
def submitAssemble (c : MoodleWSClient) (method wsFunctionName : String)
    (wsParameters : JsVal) (optTimeout : TimeoutOpt) : Except JsError Request :=
  if methodValid (effectiveMethod method) &&
      wsFunctionValid (effectiveWsFunction wsFunctionName) && isDict wsParameters then
    match encodeWSArguments wsParameters with
    | .error e => .error e
    | .ok encodedParams =>
      .ok { uri := apiUrl c
            method := effectiveMethod method
            qs := foldUp [("wstoken", c.token), ("wsfunction", effectiveWsFunction wsFunctionName),
                          ("moodlewsrestformat", "json")] encodedParams
            strictSSL := !c.options.acceptUntrustedTLSCert
            timeout := effectiveTimeout c.options.timeout optTimeout }
  else .error .validationError

/-- The caller's options object, with the three keys the library ever
reads; a `none` field is an absent property.  The same shape represents
the object before and after the constructor's in-place coercion. -/
structure OptionsArg where
  acceptUntrustedTLSCert : Option Bool := none
  timeout : TimeoutOpt := .absent
  dataFormat : Option String := none
deriving Repr, DecidableEq

/-- The in-place mutation the constructor's `coerce` performs on the
caller's options object (source lines 283–296): write
`acceptUntrustedTLSCert` as the boolean coercion of the supplied value,
defaulting to `false`; write `timeout` as the millisecond coercion of the
supplied value when one is present (`NaN` when it does not coerce to a
number), and the default `5000` otherwise; leave every other key — in
particular `dataFormat` — untouched. -/
def mutateOptionsObj (v : OptionsArg) : OptionsArg :=
  { acceptUntrustedTLSCert := some (v.acceptUntrustedTLSCert.getD false)
    timeout := match v.timeout with
      | .absent => .msVal 5000
      | t => match coerceTimeout t with
        | some n => .msVal n
        | none => .invalid
    dataFormat := v.dataFormat }

/-- The base-URL coercion of the constructor (source lines 260–262):
append a trailing slash when absent. -/
def coerceUrl (s : String) : String := if endsSlash s then s else s ++ "/"

/-- Modelled from the spec: the external validate.js `url` validator with
`schemes: ['https']` and `allowLocal: true` together with the
`format: /.*\//` trailing-slash check — a secure (`https`) absolute URL
(the `https://` scheme followed by a non-empty remainder) ending in a
slash. -/
def validUrl (s : String) : Bool :=
  listLeads "https://".data s.data && endsSlash s && decide (8 < s.data.length)

/-- A character of the token pattern `[a-z0-9]{32}` (source line 275). -/
def tokenChar (c : Char) : Bool := ('a' ≤ c && c ≤ 'z') || ('0' ≤ c && c ≤ '9')

/-- The token constraint (source lines 271–278): a 32-character string of
lower-case letters and digits (full regex match). -/
def validToken (s : String) : Bool := s.data.length == 32 && s.data.all tokenChar

/-- The `MoodleWSClient` constructor (source lines 254–314) over plain
values: validate the base URL (with the trailing-slash coercion) and the
token, default `options` to `{}` when not given, run the options coercion,
and validate the coerced `timeout` (`presence` plus positive-integer
numericality); on success store the URL, token and options.  The built-in
`ping` shortcut the constructor also registers is outside this model. -/
def mkClient (moodleBaseUrl token : String) (opts : Option OptionsArg) :
    Except JsError MoodleWSClient :=
  if validUrl (coerceUrl moodleBaseUrl) && validToken token then
    match (mutateOptionsObj (opts.getD {})).timeout with
    | .msVal n =>
      if 0 < n then
        .ok { moodleUrl := coerceUrl moodleBaseUrl
              token := token
              options := { acceptUntrustedTLSCert :=
                             ((mutateOptionsObj (opts.getD {})).acceptUntrustedTLSCert).getD false
                           timeout := n
                           dataFormat := (mutateOptionsObj (opts.getD {})).dataFormat } }
      else .error .validationError
    | _ => .error .validationError
  else .error .validationError

/-- A heap of JavaScript options objects, addressed by references; used to
make the constructor's in-place mutation of the caller's object
observable. -/
def Heap : Type := Nat → OptionsArg

/-- Overwrite the object a reference points at. -/
def heapWrite (h : Heap) (r : Nat) (v : OptionsArg) : Heap :=
  fun i => if i = r then v else h i

/-- A constructed client whose `_options` field holds a reference into the
heap rather than a copy — JavaScript objects are stored by reference. -/
structure ClientRef where
  moodleUrl : String
  token : String
  optionsRef : Nat
deriving Repr, DecidableEq

/-- The constructor over an explicit heap (source lines 254–314): the
`coerce` of the options parameter writes the defaulted fields into the
caller's object itself (`v.acceptUntrustedTLSCert = ...; v.timeout = ...`
before `return v`), and line 310 stores that very reference as
`this._options`. -/
def mkClientH (h : Heap) (moodleBaseUrl token : String) (optsRef : Nat) :
    Except JsError (Heap × ClientRef) :=
  if validUrl (coerceUrl moodleBaseUrl) && validToken token then
    match (mutateOptionsObj (h optsRef)).timeout with
    | .msVal n =>
      if 0 < n then
        .ok (heapWrite h optsRef (mutateOptionsObj (h optsRef)),
             { moodleUrl := coerceUrl moodleBaseUrl, token := token, optionsRef := optsRef })
      else .error .validationError
    | _ => .error .validationError
  else .error .validationError

/-- The options a client sees: the heap object its stored reference points
at. -/
def clientOptions (h : Heap) (c : ClientRef) : OptionsArg := h c.optionsRef

/-- Reading a query parameter from the assembled parameter list (objects
have unique keys, so the first binding is the binding). -/
def qsLookup (k : String) : List (String × String) → Option String
  | [] => none
  | p :: ps => if p.1 = k then some p.2 else qsLookup k ps

/-- Follows the spec's words (§4.4): a response field that is "present and
non-empty"; other fields count as absent. -/
def fieldVal (o : Option String) : Option String :=
  match o with
  | some s => if s = "" then none else some s
  | none => none

/-- Follows the spec's words (§4.4): the synthesized Domain Error message —
the `exception` value and `": "` when present and non-empty, then the
`message` value when present and non-empty and the literal
`"unknown webservice error"` otherwise, then
`" (Error Code: " ++ errorcode ++ ")"` when `errorcode` is present and
non-empty. -/
def specWSErrorMessage (exc msg ec : Option String) : String :=
  ((fieldVal exc).elim "" (fun s => s ++ ": ")) ++
    ((fieldVal msg).getD "unknown webservice error") ++
    ((fieldVal ec).elim "" (fun s => " (Error Code: " ++ s ++ ")"))

/-- A response payload object carrying the given optional string fields
`exception`, `message` and `errorcode`. -/
def mkPayload (exc msg ec : Option String) : JsVal :=
  .vObj ((exc.elim [] fun s => [("exception", JsVal.vStr s)]) ++
         (msg.elim [] fun s => [("message", JsVal.vStr s)]) ++
         (ec.elim [] fun s => [("errorcode", JsVal.vStr s)]))

/-- The worked example tree of the spec and the source's documentation:
`{criteria: [{key: 'deleted', value: 0}]}`. -/
def exKvs : List (String × JsVal) :=
  [("criteria", .vArr [.vObj [("key", .vStr "deleted"), ("value", .vNum 0)]])]

/-- The expected encoding of `exKvs`. -/
def exPairs : List (String × String) :=
  [("criteria[0][key]", "deleted"), ("criteria[0][value]", "0")]

/-- A client constructed with `dataFormat: 'xml'` in its options. -/
def xmlClient : MoodleWSClient :=
  { moodleUrl := "https://localhost/", token := "00000000000000000000000000000000",
    options := { acceptUntrustedTLSCert := false, timeout := 5000, dataFormat := some "xml" } }

/-- The request `submit` assembles for `xmlClient`, method `GET`, function
`core_user_get_users`, parameters `exKvs` and no per-call options. -/
def wReq : Request :=
  { uri := "https://localhost/webservice/rest/server.php"
    method := "GET"
    qs := [("wstoken", "00000000000000000000000000000000"),
           ("wsfunction", "core_user_get_users"),
           ("moodlewsrestformat", "json"),
           ("criteria[0][key]", "deleted"), ("criteria[0][value]", "0")]
    strictSSL := true
    timeout := 5000 }

/-- A heap of all-fresh (empty) options objects. -/
def emptyHeap : Heap := fun _ => {}

/-- The heap after constructing a client over `emptyHeap` with its options
object at reference `0`. -/
def wHeap2 : Heap := heapWrite emptyHeap 0 (mutateOptionsObj {})

/-- The client reference produced by that construction. -/
def wClientRef : ClientRef :=
  { moodleUrl := "https://localhost/", token := "00000000000000000000000000000000",
    optionsRef := 0 }

/-- An options object a caller could later write into the aliased object. -/
def wOptsXml : OptionsArg := { dataFormat := some "xml" }

/-! Helper lemmas about the object-assignment primitives. -/

/-- Assigning a key not yet present appends the binding. -/
theorem upsert_of_not_mem (m : List (String × String)) (k v : String)
    (h : k ∉ m.map Prod.fst) : upsert m k v = m ++ [(k, v)] := by
  have hm : (m.any fun p => decide (p.1 = k)) = false := by
    simp only [List.any_eq_false, decide_eq_true_eq]
    intro p hp hpk
    exact h (List.mem_map.mpr ⟨p, hp, hpk⟩)
  simp [upsert, hm]

/-- Assigning a key that is present leaves the key list unchanged. -/
theorem keys_upsert_of_mem (m : List (String × String)) (k v : String)
    (hm : (m.any fun p => decide (p.1 = k)) = true) :
    (upsert m k v).map Prod.fst = m.map Prod.fst := by
  simp only [upsert, hm, if_true, List.map_map]
  apply List.map_congr_left
  intro p _
  by_cases hp : p.1 = k
  · simp [Function.comp, hp]
  · simp [Function.comp, hp]

/-- Assignment preserves key uniqueness. -/
theorem nodup_keys_upsert (m : List (String × String)) (k v : String)
    (h : (m.map Prod.fst).Nodup) : ((upsert m k v).map Prod.fst).Nodup := by
  by_cases hm : (m.any fun p => decide (p.1 = k)) = true
  · rw [keys_upsert_of_mem m k v hm]
    exact h
  · have hk : k ∉ m.map Prod.fst := by
      intro hmem
      apply hm
      rw [List.any_eq_true]
      obtain ⟨p, hp, hpk⟩ := List.mem_map.mp hmem
      exact ⟨p, hp, by simp [hpk]⟩
    rw [upsert_of_not_mem m k v hk]
    simp only [List.map_append, List.map_cons, List.map_nil]
    rw [List.nodup_append]
    refine ⟨h, List.nodup_singleton k, ?_⟩
    intro a ha hb
    rw [List.mem_singleton] at hb
    subst hb
    exact hk ha

/-- Folding assignments starting from an object with unique keys yields an
object with unique keys. -/
theorem nodup_keys_foldUp (prs res : List (String × String))
    (h : (res.map Prod.fst).Nodup) : ((foldUp res prs).map Prod.fst).Nodup := by
  induction prs generalizing res with
  | nil => simpa [foldUp] using h
  | cons p ps ih =>
    have hstep : foldUp res (p :: ps) = foldUp (upsert res p.1 p.2) ps := by
      simp [foldUp]
    rw [hstep]
    exact ih _ (nodup_keys_upsert _ _ _ h)

/-- Folding a concatenation of assignment lists. -/
theorem foldUp_append (res a b : List (String × String)) :
    foldUp res (a ++ b) = foldUp (foldUp res a) b := by
  simp [foldUp, List.foldl_append]

/-- When all keys involved are distinct, folding assignments is plain
concatenation. -/
theorem foldUp_of_nodup_append (prs res : List (String × String))
    (h : ((res ++ prs).map Prod.fst).Nodup) : foldUp res prs = res ++ prs := by
  induction prs generalizing res with
  | nil => simp [foldUp]
  | cons p ps ih =>
    have hk : p.1 ∉ res.map Prod.fst := by
      simp only [List.map_append, List.nodup_append] at h
      intro hmem
      exact h.2.2 hmem (by simp)
    have hup : upsert res p.1 p.2 = res ++ [p] := by
      simpa using upsert_of_not_mem res p.1 p.2 hk
    have hstep : foldUp res (p :: ps) = foldUp (res ++ [p]) ps := by
      simp [foldUp, hup]
    rw [hstep, ih (res ++ [p]) (by simpa [List.append_assoc] using h)]
    simp

/-- Reading a key through the rewrite branch of an assignment with a
different key. -/
theorem qsLookup_mapUp (m : List (String × String)) (k k' v : String)
    (h : k ≠ k') :
    qsLookup k (m.map fun p => if p.1 = k' then (k', v) else p) = qsLookup k m := by
  induction m with
  | nil => simp [qsLookup]
  | cons p ps ih =>
    by_cases hp : p.1 = k'
    · have hk1 : ¬(k' = k) := fun hh => h hh.symm
      simp only [List.map_cons, qsLookup, hp, if_true, if_neg hk1, ih]
    · simp only [List.map_cons, qsLookup, if_neg hp, ih]

/-- Reading a key through an appended binding with a different key. -/
theorem qsLookup_append_single_ne (m : List (String × String)) (k k' v : String)
    (h : k ≠ k') : qsLookup k (m ++ [(k', v)]) = qsLookup k m := by
  induction m with
  | nil => simp [qsLookup, Ne.symm h]
  | cons p ps ih =>
    by_cases hp : p.1 = k <;> simp [qsLookup, hp, ih]

/-- Reading a key is unaffected by an assignment to a different key. -/
theorem qsLookup_upsert_ne (m : List (String × String)) (k k' v : String)
    (h : k ≠ k') : qsLookup k (upsert m k' v) = qsLookup k m := by
  unfold upsert
  split
  · exact qsLookup_mapUp m k k' v h
  · exact qsLookup_append_single_ne m k k' v h

/-- Reading a key is unaffected by folding assignments that never touch
it. -/
theorem qsLookup_foldUp_not_mem (prs res : List (String × String)) (k : String)
    (h : k ∉ prs.map Prod.fst) : qsLookup k (foldUp res prs) = qsLookup k res := by
  induction prs generalizing res with
  | nil => simp [foldUp]
  | cons p ps ih =>
    have h1 : k ≠ p.1 := by
      intro hh
      exact h (by simp [hh])
    have h2 : k ∉ ps.map Prod.fst := by
      intro hh
      exact h (by simp [hh])
    have hstep : foldUp res (p :: ps) = foldUp (upsert res p.1 p.2) ps := by
      simp [foldUp]
    rw [hstep, ih _ h2, qsLookup_upsert_ne res k p.1 p.2 h1]

/-! The bridge between the source's recursor and the spec-side leaf
collection. -/

mutual

/-- The recursor folds exactly the spec-side leaf assignments of the node
into the accumulator, and fails exactly when the leaf collection meets an
unsupported node. -/
theorem recursor_spec (res : List (String × String)) (pre : String) (v : JsVal) :
    recursor res pre v = (match specLeaves pre v with
      | some prs => Except.ok (foldUp res prs)
      | none => Except.error JsError.typeConversionError) := by
  cases v with
  | vNull => simp [recursor, specLeaves, foldUp]
  | vBool b => simp [recursor, specLeaves, foldUp]
  | vNum n => simp [recursor, specLeaves, foldUp]
  | vStr s => simp [recursor, specLeaves, foldUp]
  | vArr l =>
    rw [show recursor res pre (JsVal.vArr l) = recursorArr res pre 0 l from rfl,
      show specLeaves pre (JsVal.vArr l) = specLeavesArr pre 0 l from rfl]
    exact recursorArr_spec res pre 0 l
  | vObj kvs =>
    rw [show recursor res pre (JsVal.vObj kvs) = recursorObj res pre kvs from rfl,
      show specLeaves pre (JsVal.vObj kvs) = specLeavesObj pre kvs from rfl]
    exact recursorObj_spec res pre kvs
  | vFun => simp [recursor, specLeaves]

/-- `recursor_spec` for the element loop over an array. -/
theorem recursorArr_spec (res : List (String × String)) (pre : String) (i : Nat)
    (l : List JsVal) :
    recursorArr res pre i l = (match specLeavesArr pre i l with
      | some prs => Except.ok (foldUp res prs)
      | none => Except.error JsError.typeConversionError) := by
  cases l with
  | nil => simp [recursorArr, specLeavesArr, foldUp]
  | cons x xs =>
    have hrec := recursor_spec res (pre ++ "[" ++ toString i ++ "]") x
    cases hx : specLeaves (pre ++ "[" ++ toString i ++ "]") x with
    | none =>
      rw [hx] at hrec
      simp only [recursorArr, specLeavesArr, hx, hrec]
    | some a =>
      rw [hx] at hrec
      have hrest := recursorArr_spec (foldUp res a) pre (i + 1) xs
      cases hxs : specLeavesArr pre (i + 1) xs with
      | none =>
        rw [hxs] at hrest
        simp only [recursorArr, specLeavesArr, hx, hxs, hrec, hrest]
      | some b =>
        rw [hxs] at hrest
        simp only [recursorArr, specLeavesArr, hx, hxs, hrec, hrest, foldUp_append]

/-- `recursor_spec` for the binding loop over an object. -/
theorem recursorObj_spec (res : List (String × String)) (pre : String)
    (kvs : List (String × JsVal)) :
    recursorObj res pre kvs = (match specLeavesObj pre kvs with
      | some prs => Except.ok (foldUp res prs)
      | none => Except.error JsError.typeConversionError) := by
  cases kvs with
  | nil => simp [recursorObj, specLeavesObj, foldUp]
  | cons p xs =>
    obtain ⟨k, x⟩ := p
    have hrec := recursor_spec res (if pre = "" then k else pre ++ "[" ++ k ++ "]") x
    cases hx : specLeaves (if pre = "" then k else pre ++ "[" ++ k ++ "]") x with
    | none =>
      rw [hx] at hrec
      simp only [recursorObj, specLeavesObj, hx, hrec]
    | some a =>
      rw [hx] at hrec
      have hrest := recursorObj_spec (foldUp res a) pre xs
      cases hxs : specLeavesObj pre xs with
      | none =>
        rw [hxs] at hrest
        simp only [recursorObj, specLeavesObj, hx, hxs, hrec, hrest]
      | some b =>
        rw [hxs] at hrest
        simp only [recursorObj, specLeavesObj, hx, hxs, hrec, hrest, foldUp_append]

end

mutual

/-- A tree containing an unsupported node has no spec-side leaf list. -/
theorem hasInvalid_specLeaves (v : JsVal) (h : hasInvalid v = true) (pre : String) :
    specLeaves pre v = none := by
  cases v with
  | vNull => exact absurd h (by simp [hasInvalid])
  | vBool b => exact absurd h (by simp [hasInvalid])
  | vNum n => exact absurd h (by simp [hasInvalid])
  | vStr s => exact absurd h (by simp [hasInvalid])
  | vArr l =>
    rw [show specLeaves pre (JsVal.vArr l) = specLeavesArr pre 0 l from rfl]
    exact hasInvalidArr_specLeaves l (by simpa [hasInvalid] using h) pre 0
  | vObj kvs =>
    rw [show specLeaves pre (JsVal.vObj kvs) = specLeavesObj pre kvs from rfl]
    exact hasInvalidObj_specLeaves kvs (by simpa [hasInvalid] using h) pre
  | vFun => simp [specLeaves]

/-- `hasInvalid_specLeaves` for arrays. -/
theorem hasInvalidArr_specLeaves (l : List JsVal) (h : hasInvalidArr l = true)
    (pre : String) (i : Nat) : specLeavesArr pre i l = none := by
  cases l with
  | nil => exact absurd h (by simp [hasInvalidArr])
  | cons x xs =>
    rw [hasInvalidArr, Bool.or_eq_true] at h
    rcases h with hx | hxs
    · simp only [specLeavesArr, hasInvalid_specLeaves x hx (pre ++ "[" ++ toString i ++ "]")]
    · cases hx2 : specLeaves (pre ++ "[" ++ toString i ++ "]") x with
      | none => simp only [specLeavesArr, hx2]
      | some a =>
        simp only [specLeavesArr, hx2, hasInvalidArr_specLeaves xs hxs pre (i + 1)]

/-- `hasInvalid_specLeaves` for objects. -/
theorem hasInvalidObj_specLeaves (kvs : List (String × JsVal))
    (h : hasInvalidObj kvs = true) (pre : String) : specLeavesObj pre kvs = none := by
  cases kvs with
  | nil => exact absurd h (by simp [hasInvalidObj])
  | cons p xs =>
    obtain ⟨k, x⟩ := p
    rw [hasInvalidObj, Bool.or_eq_true] at h
    rcases h with hx | hxs
    · simp only [specLeavesObj,
        hasInvalid_specLeaves x hx (if pre = "" then k else pre ++ "[" ++ k ++ "]")]
    · cases hx2 : specLeaves (if pre = "" then k else pre ++ "[" ++ k ++ "]") x with
      | none => simp only [specLeavesObj, hx2]
      | some a =>
        simp only [specLeavesObj, hx2, hasInvalidObj_specLeaves xs hxs pre]

end

/-- The spec-side leaves of a flat map of string scalars are the map
itself. -/
theorem specLeavesObj_strObj (kvs : List (String × String)) :
    specLeavesObj "" (kvs.map (fun p => (p.1, JsVal.vStr p.2))) = some kvs := by
  induction kvs with
  | nil => simp [specLeavesObj]
  | cons p ps ih =>
    simp [specLeavesObj, specLeaves, ih]

/-- Encoding a flat map of string scalars with distinct keys returns the
map unchanged. -/
theorem encode_flat_of_nodup (kvs : List (String × String))
    (h : (kvs.map Prod.fst).Nodup) :
    encodeWSArguments (strObj kvs) = Except.ok kvs := by
  have hs : specLeaves "" (JsVal.vObj (kvs.map (fun p => (p.1, JsVal.vStr p.2)))) = some kvs := by
    rw [show specLeaves "" (JsVal.vObj (kvs.map (fun p => (p.1, JsVal.vStr p.2)))) =
        specLeavesObj "" (kvs.map (fun p => (p.1, JsVal.vStr p.2))) from rfl]
    exact specLeavesObj_strObj kvs
  have hb := recursor_spec [] "" (JsVal.vObj (kvs.map (fun p => (p.1, JsVal.vStr p.2))))
  rw [hs] at hb
  have hf : foldUp [] kvs = kvs := by
    have := foldUp_of_nodup_append kvs [] (by simpa using h)
    simpa using this
  calc encodeWSArguments (strObj kvs)
      = recursor [] "" (JsVal.vObj (kvs.map (fun p => (p.1, JsVal.vStr p.2)))) := rfl
    _ = Except.ok (foldUp [] kvs) := hb
    _ = Except.ok kvs := by rw [hf]

/-- The synthesized message over a payload built from optional string
fields, with the property reads resolved. -/
theorem mkWSErrorMessage_payload (exc msg ec : Option String) :
    mkWSErrorMessage (mkPayload exc msg ec) =
      (if truthy (exc.elim JsVal.vNull JsVal.vStr) then
          jsDisplay (exc.elim JsVal.vNull JsVal.vStr) ++ ": " else "") ++
        (if truthy (msg.elim JsVal.vNull JsVal.vStr) then
          jsDisplay (msg.elim JsVal.vNull JsVal.vStr) else "unknown webservice error") ++
        (if truthy (ec.elim JsVal.vNull JsVal.vStr) then
          " (Error Code: " ++ jsDisplay (ec.elim JsVal.vNull JsVal.vStr) ++ ")" else "") := by
  rcases exc with _ | e <;> rcases msg with _ | m <;> rcases ec with _ | c <;> rfl

/-- A successful request assembly fixes the shape of the request. -/
theorem submitAssemble_ok (c : MoodleWSClient) (method fn : String) (ps : JsVal)
    (tOpt : TimeoutOpt) (r : Request) (enc : List (String × String))
    (hok : submitAssemble c method fn ps tOpt = Except.ok r)
    (henc : encodeWSArguments ps = Except.ok enc) :
    r = { uri := apiUrl c
          method := effectiveMethod method
          qs := foldUp [("wstoken", c.token), ("wsfunction", effectiveWsFunction fn),
                        ("moodlewsrestformat", "json")] enc
          strictSSL := !c.options.acceptUntrustedTLSCert
          timeout := effectiveTimeout c.options.timeout tOpt } := by
  unfold submitAssemble at hok
  split at hok
  · rw [henc] at hok
    simp only [Except.ok.injEq] at hok
    exact hok.symm
  · exact absurd hok (by simp)

/-! The claims. -/

/-- C1: for every finite parameter tree of scalars, ordered sequences and
string-keyed mappings rooted at a mapping, `encodeWSArguments` returns the
flat mapping assigning to each scalar leaf its string conversion under the
bracketed path of depth-first pre-order descent (`specLeaves`: sequence
elements append `[i]`, mapping keys append `[k]`, bare at the top level);
in particular the numeric scalar 0 maps to `"0"`, and the worked example
encodes to `{'criteria[0][key]': 'deleted', 'criteria[0][value]': '0'}`. -/
theorem encode_assigns_bracketed_paths :
    (∀ (kvs : List (String × JsVal)) (prs : List (String × String)),
        specLeaves "" (JsVal.vObj kvs) = some prs → (prs.map Prod.fst).Nodup →
        encodeWSArguments (JsVal.vObj kvs) = Except.ok prs) ∧
    encodeWSArguments (JsVal.vObj exKvs) = Except.ok exPairs := by
  constructor
  · intro kvs prs hs hnd
    have hb := recursor_spec [] "" (JsVal.vObj kvs)
    rw [hs] at hb
    have hf : foldUp [] prs = prs := by
      simpa using foldUp_of_nodup_append prs [] (by simpa using hnd)
    calc encodeWSArguments (JsVal.vObj kvs) = recursor [] "" (JsVal.vObj kvs) := rfl
      _ = Except.ok (foldUp [] prs) := hb
      _ = Except.ok prs := by rw [hf]
  · rfl

/-- Witness for C1 at the worked example. -/
theorem encode_assigns_bracketed_paths_witness :
    specLeaves "" (JsVal.vObj exKvs) = some exPairs ∧ (exPairs.map Prod.fst).Nodup ∧
    encodeWSArguments (JsVal.vObj exKvs) = Except.ok exPairs :=
  ⟨rfl, by decide, encode_assigns_bracketed_paths.1 exKvs exPairs rfl (by decide)⟩

/-- C2: a submit call whose transport step succeeds and whose body decodes
as JSON fails with a Domain Error (`MoodleWSError`) constructed from the
decoded payload exactly when the payload is a mapping containing a truthy
`exception` key, and otherwise returns the decoded payload unchanged. -/
theorem submit_response_classification (responseData : JsVal) :
    handleResponse responseData =
      (if hasTruthyException responseData then
        Except.error (JsError.wsError (mkMoodleWSError responseData))
      else Except.ok responseData) := by
  cases responseData <;>
    simp [handleResponse, hasTruthyException, truthy, jsGet]

/-- C3: a mapping-rooted input tree containing, at any depth, a node that
is neither a scalar, a sequence nor a string-keyed mapping (e.g. a
function value) makes `encodeWSArguments` fail with the type error rather
than coerce the node.  (A non-mapping at the very top level is instead
rejected up front by the `dictionary` validation, per the spec's separate
top-level rule.) -/
theorem encode_rejects_unsupported_nodes (kvs : List (String × JsVal))
    (h : hasInvalid (JsVal.vObj kvs) = true) :
    encodeWSArguments (JsVal.vObj kvs) = Except.error JsError.typeConversionError := by
  have hs := hasInvalid_specLeaves (JsVal.vObj kvs) h ""
  have hb := recursor_spec [] "" (JsVal.vObj kvs)
  rw [hs] at hb
  calc encodeWSArguments (JsVal.vObj kvs) = recursor [] "" (JsVal.vObj kvs) := rfl
    _ = Except.error JsError.typeConversionError := hb

/-- Witness for C3: a tree with a function value one level down. -/
theorem encode_rejects_unsupported_nodes_witness :
    hasInvalid (JsVal.vObj [("callback", JsVal.vFun)]) = true ∧
    encodeWSArguments (JsVal.vObj [("callback", JsVal.vFun)]) =
      Except.error JsError.typeConversionError :=
  ⟨rfl, encode_rejects_unsupported_nodes [("callback", JsVal.vFun)] rfl⟩

/-- C4: the Domain Error's synthesized message is exactly the `exception`
value followed by `": "` when present and non-empty, then the `message`
value when present and non-empty and the literal
`"unknown webservice error"` otherwise, then
`" (Error Code: " ++ errorcode ++ ")"` when `errorcode` is present and
non-empty; in particular the empty payload yields
`"unknown webservice error"` and a payload with all three fields yields
the fully assembled form. -/
theorem wsError_message_rule :
    (∀ exc msg ec : Option String,
        mkWSErrorMessage (mkPayload exc msg ec) = specWSErrorMessage exc msg ec) ∧
    mkWSErrorMessage (JsVal.vObj []) = "unknown webservice error" ∧
    mkWSErrorMessage (mkPayload (some "moodle_exception")
        (some "ID number is already used for another category")
        (some "categoryidnumbertaken")) =
      "moodle_exception: ID number is already used for another category (Error Code: categoryidnumbertaken)" := by
  refine ⟨?_, rfl, rfl⟩
  intro exc msg ec
  rw [mkWSErrorMessage_payload]
  rcases exc with _ | e <;> rcases msg with _ | m <;> rcases ec with _ | c <;>
    simp only [Option.elim, truthy, jsDisplay, specWSErrorMessage, fieldVal, Option.getD] <;>
    split_ifs <;> simp_all [bne_iff_ne]

/-- C5 counterexample: for a descriptor constructed with dataFormat 'xml',
the assembled request still carries the data-format marker
`moodlewsrestformat = 'json'` (the source hard-codes the literal at line
408), not 'xml' as the claim states. -/
theorem dataFormat_marker_counterexample :
    xmlClient.options.dataFormat = some "xml" ∧
    (submitAssemble xmlClient "GET" "core_webservice_get_site_info" (JsVal.vObj [])
        TimeoutOpt.absent).map (fun r => qsLookup "moodlewsrestformat" r.qs) =
      Except.ok (some "json") ∧
    some "json" ≠ some "xml" :=
  ⟨rfl, rfl, by decide⟩

/-- C5 (amended): every assembled request's query parameters include
`wstoken` equal to the descriptor's token, `wsfunction` equal to the
coerced remote function name, and `moodlewsrestformat` equal to the
literal `'json'` irrespective of the descriptor's stored dataFormat
(provided the encoded parameters do not themselves overwrite these keys,
which the merge loop would let them do). -/
theorem submit_qs_base_parameters (c : MoodleWSClient) (method fn : String)
    (ps : JsVal) (tOpt : TimeoutOpt) (r : Request) (enc : List (String × String))
    (hok : submitAssemble c method fn ps tOpt = Except.ok r)
    (henc : encodeWSArguments ps = Except.ok enc)
    (h1 : "wstoken" ∉ enc.map Prod.fst)
    (h2 : "wsfunction" ∉ enc.map Prod.fst)
    (h3 : "moodlewsrestformat" ∉ enc.map Prod.fst) :
    qsLookup "wstoken" r.qs = some c.token ∧
    qsLookup "wsfunction" r.qs = some (effectiveWsFunction fn) ∧
    qsLookup "moodlewsrestformat" r.qs = some "json" := by
  have hr := submitAssemble_ok c method fn ps tOpt r enc hok henc
  have hq : r.qs = foldUp [("wstoken", c.token), ("wsfunction", effectiveWsFunction fn),
      ("moodlewsrestformat", "json")] enc := by rw [hr]
  refine ⟨?_, ?_, ?_⟩
  · rw [hq, qsLookup_foldUp_not_mem enc _ _ h1]
    rfl
  · rw [hq, qsLookup_foldUp_not_mem enc _ _ h2]
    rfl
  · rw [hq, qsLookup_foldUp_not_mem enc _ _ h3]
    rfl

/-- Witness for C5 (amended) at a concrete call on the xml-flavoured
descriptor. -/
theorem submit_qs_base_parameters_witness :
    qsLookup "wstoken" wReq.qs = some xmlClient.token ∧
    qsLookup "wsfunction" wReq.qs = some (effectiveWsFunction "core_user_get_users") ∧
    qsLookup "moodlewsrestformat" wReq.qs = some "json" :=
  submit_qs_base_parameters xmlClient "GET" "core_user_get_users" (JsVal.vObj exKvs)
    TimeoutOpt.absent wReq exPairs rfl rfl (by decide) (by decide) (by decide)

/-- C6: the timeout of every assembled request equals the per-call
override when it is present and valid (its coercion yields a positive
integer millisecond count), and the descriptor's stored default timeout
otherwise — in particular a call with no override uses the stored
default. -/
theorem submit_effective_timeout (c : MoodleWSClient) (method fn : String)
    (ps : JsVal) (tOpt : TimeoutOpt) (r : Request)
    (hok : submitAssemble c method fn ps tOpt = Except.ok r) :
    r.timeout = (if timeoutValid (coerceTimeout tOpt) then
                  (coerceTimeout tOpt).getD c.options.timeout
                 else c.options.timeout) ∧
    (tOpt = TimeoutOpt.absent → r.timeout = c.options.timeout) := by
  unfold submitAssemble at hok
  split at hok
  · split at hok
    · exact absurd hok (by simp)
    · simp only [Except.ok.injEq] at hok
      subst hok
      constructor
      · rfl
      · intro ht
        subst ht
        rfl
  · exact absurd hok (by simp)

/-- Witness for C6 at a concrete call with no per-call override. -/
theorem submit_effective_timeout_witness :
    wReq.timeout = (if timeoutValid (coerceTimeout TimeoutOpt.absent) then
                     (coerceTimeout TimeoutOpt.absent).getD xmlClient.options.timeout
                    else xmlClient.options.timeout) ∧
    (TimeoutOpt.absent = TimeoutOpt.absent → wReq.timeout = xmlClient.options.timeout) :=
  submit_effective_timeout xmlClient "GET" "core_user_get_users" (JsVal.vObj exKvs)
    TimeoutOpt.absent wReq rfl

/-- C7 (code bug): constructing with a valid URL and token and no options
argument — or an empty options mapping — stores
`acceptUntrustedTLSCert = false` and `timeout = 5000`, but leaves
`dataFormat` absent: the constructor never writes the `'json'` default
that the claim (and the repository's own test asserting
`m1._options.dataFormat === 'json'`) expects. -/
theorem constructor_defaults_evaluation :
    mkClient "https://localhost" "00000000000000000000000000000000" none =
      Except.ok { moodleUrl := "https://localhost/",
                  token := "00000000000000000000000000000000",
                  options := { acceptUntrustedTLSCert := false, timeout := 5000,
                               dataFormat := none } } ∧
    mkClient "https://localhost" "00000000000000000000000000000000" (some {}) =
      Except.ok { moodleUrl := "https://localhost/",
                  token := "00000000000000000000000000000000",
                  options := { acceptUntrustedTLSCert := false, timeout := 5000,
                               dataFormat := none } } ∧
    (none : Option String) ≠ some "json" :=
  ⟨rfl, rfl, by decide⟩

/-- C8: when the uppercased (and empty-defaulted-to-GET) method is not
exactly one of GET, POST or PUT, or the lowercased remote function name
does not fully match `[a-z_]+`, the submit call fails with a
ValidationError — the assembly never produces a request for the
transport. -/
theorem submit_validation_guard (c : MoodleWSClient) (method fn : String)
    (ps : JsVal) (tOpt : TimeoutOpt)
    (h : methodValid (effectiveMethod method) = false ∨
         wsFunctionValid (effectiveWsFunction fn) = false) :
    submitAssemble c method fn ps tOpt = Except.error JsError.validationError := by
  rcases h with h | h <;> simp [submitAssemble, h]

/-- Witness for C8 at the unsupported method DELETE. -/
theorem submit_validation_guard_witness :
    methodValid (effectiveMethod "DELETE") = false ∧
    submitAssemble xmlClient "DELETE" "core_webservice_get_site_info" (JsVal.vObj [])
        TimeoutOpt.absent = Except.error JsError.validationError :=
  ⟨rfl, submit_validation_guard xmlClient "DELETE" "core_webservice_get_site_info"
    (JsVal.vObj []) TimeoutOpt.absent (Or.inl rfl)⟩

/-- C9: encoding is the identity on already-flat string-scalar maps
(including already-encoded maps with bracketed keys), and hence
idempotent: re-encoding any successful encoding returns it unchanged. -/
theorem encode_idempotent :
    (∀ kvs : List (String × String), (kvs.map Prod.fst).Nodup →
        encodeWSArguments (strObj kvs) = Except.ok kvs) ∧
    (∀ (t : JsVal) (m : List (String × String)), encodeWSArguments t = Except.ok m →
        encodeWSArguments (strObj m) = Except.ok m) := by
  constructor
  · exact fun kvs h => encode_flat_of_nodup kvs h
  · intro t m hok
    cases t with
    | vObj kvs =>
      have hb := recursor_spec [] "" (JsVal.vObj kvs)
      cases hs : specLeaves "" (JsVal.vObj kvs) with
      | none =>
        rw [hs] at hb
        rw [show encodeWSArguments (JsVal.vObj kvs) = recursor [] "" (JsVal.vObj kvs) from rfl,
          hb] at hok
        exact absurd hok (by simp)
      | some prs =>
        rw [hs] at hb
        rw [show encodeWSArguments (JsVal.vObj kvs) = recursor [] "" (JsVal.vObj kvs) from rfl,
          hb] at hok
        have hm : foldUp [] prs = m := by simpa using hok
        have hnd : (m.map Prod.fst).Nodup := by
          rw [← hm]
          exact nodup_keys_foldUp prs [] (by simp)
        exact encode_flat_of_nodup m hnd
    | vNull => simp [encodeWSArguments] at hok
    | vBool b => simp [encodeWSArguments] at hok
    | vNum n => simp [encodeWSArguments] at hok
    | vStr s => simp [encodeWSArguments] at hok
    | vArr l => simp [encodeWSArguments] at hok
    | vFun => simp [encodeWSArguments] at hok

/-- Witness for C9: the already-encoded example map passes through
unchanged. -/
theorem encode_idempotent_witness :
    (exPairs.map Prod.fst).Nodup ∧ encodeWSArguments (strObj exPairs) = Except.ok exPairs :=
  ⟨by decide, encode_idempotent.1 exPairs (by decide)⟩

/-- C10: a construction call that passes an options object mutates that
caller-supplied object in place (writing the defaulted
`acceptUntrustedTLSCert` and normalized `timeout` into it) and stores the
very same reference as the descriptor's options, so a later external write
to the object changes the options the descriptor sees. -/
theorem constructor_aliases_options_object
    (h : Heap) (u t : String) (r : Nat) (h2 : Heap) (c : ClientRef)
    (hok : mkClientH h u t r = Except.ok (h2, c)) :
    c.optionsRef = r ∧
    clientOptions h2 c = mutateOptionsObj (h r) ∧
    ∀ v : OptionsArg, clientOptions (heapWrite h2 r v) c = v := by
  unfold mkClientH at hok
  split at hok
  · split at hok
    · split at hok
      · simp only [Except.ok.injEq, Prod.mk.injEq] at hok
        obtain ⟨hh, hc⟩ := hok
        subst hh
        subst hc
        refine ⟨rfl, ?_, ?_⟩
        · simp [clientOptions, heapWrite]
        · intro v
          simp [clientOptions, heapWrite]
      · exact absurd hok (by simp)
    · exact absurd hok (by simp)
  · exact absurd hok (by simp)

/-- Witness for C10: constructing over a fresh heap with the options
object at reference 0, then writing a dataFormat into the caller's object
and seeing it through the descriptor. -/
theorem constructor_aliases_options_object_witness :
    wClientRef.optionsRef = 0 ∧
    clientOptions wHeap2 wClientRef = mutateOptionsObj (emptyHeap 0) ∧
    clientOptions (heapWrite wHeap2 0 wOptsXml) wClientRef = wOptsXml := by
  have h := constructor_aliases_options_object emptyHeap "https://localhost/"
    "00000000000000000000000000000000" 0 wHeap2 wClientRef rfl
  exact ⟨h.1, h.2.1, h.2.2 wOptsXml⟩

end MoodleWS
